import Mathlib

/-!
Verification development for the ReactiveLitepp event dispatch and
subscription-lifecycle subsystem.

The definitions below are a shallow embedding of the C++ sources:
`Event<Args...>::Impl` (handler registry with a mutex-protected map and a
monotone id counter, and snapshot-then-invoke `Notify`), `Subscription`
(unsubscribe closure over a weak reference plus a validity probe),
`ScopedSubscription`, `ObservableObject::SetPropertyValueAndNotify`, and
`ObservableCollection`.
-/

namespace ReactiveLitepp

/-- Behaviour of a registered handler, as far as it interacts with the event
core: a plain observer, a handler that calls `Unsubscribe()` on its own
`Subscription` from inside its invocation, or a handler that throws when the
payload satisfies a predicate.  (C++ handlers are arbitrary callables; this
language covers exactly the interaction patterns the registry can observe.) -/
inductive HandlerBeh (α : Type) where
  | plain : HandlerBeh α
  | selfUnsub : HandlerBeh α
  | throwIf (p : α → Bool) : HandlerBeh α

/-- Does the handler throw when invoked with `arg`? -/
def behThrows (arg : α) : HandlerBeh α → Bool
  | .throwIf p => p arg
  | _ => false

/-- A handler with no effect on the registry and that never throws. -/
def isPlainBeh : HandlerBeh α → Bool
  | .plain => true
  | _ => false

/-- Lookup in an association list keyed by handler identity; models
`std::unordered_map<int, Handler>::find`. -/
def lookupId (k : Nat) : List (Nat × β) → Option β
  | [] => none
  | (k', h) :: rest => if k' = k then some h else lookupId k rest

/-- Removal of a key; models `handlers.erase(id)` (a map holds at most one
entry per key, so removing the first occurrence is faithful). -/
def eraseId (k : Nat) : List (Nat × β) → List (Nat × β)
  | [] => []
  | (k', h) :: rest => if k' = k then rest else (k', h) :: eraseId k rest

/-- Store under a key, replacing an existing entry; models
`handlers[id] = std::move(h)`. -/
def storePair (k : Nat) (h : β) : List (Nat × β) → List (Nat × β)
  | [] => [(k, h)]
  | (k', h') :: rest => if k' = k then (k, h) :: rest else (k', h') :: storePair k h rest

/-- The keys (handler identities) of a registry list. -/
def keysOf (l : List (Nat × β)) : List Nat := l.map Prod.fst

/-- The shared registry state of one `Event`: `Event<Args...>::Impl`, holding
`std::unordered_map<int, Handler> handlers` and `int currentId = 0`. -/
structure Impl (α : Type) where
  handlers : List (Nat × HandlerBeh α)
  currentId : Nat

/-- A freshly constructed `Impl` (empty map, counter 0). -/
def Impl.init : Impl α := ⟨[], 0⟩

/-- `Impl::Add`: `int id = ++currentId; handlers[id] = std::move(h); return id;` -/
def Impl.add (st : Impl α) (h : HandlerBeh α) : Impl α × Nat :=
  let id := st.currentId + 1
  (⟨storePair id h st.handlers, id⟩, id)

/-- `Impl::Remove`: `handlers.erase(id);` -/
def Impl.remove (st : Impl α) (k : Nat) : Impl α :=
  ⟨eraseId k st.handlers, st.currentId⟩

/-- Outcome of one `Notify` dispatch: normal completion or an exception
escaping from the handler identified by `culprit`.  `trace` lists the
identities of the handlers actually invoked, in invocation order. -/
inductive NotifyResult (α : Type) where
  | ok (st : Impl α) (trace : List Nat)
  | threw (st : Impl α) (trace : List Nat) (culprit : Nat)

/-- Final registry state of a dispatch. -/
def NotifyResult.state : NotifyResult α → Impl α
  | .ok st _ => st
  | .threw st _ _ => st

/-- Identities invoked by a dispatch, in order. -/
def NotifyResult.trace : NotifyResult α → List Nat
  | .ok _ tr => tr
  | .threw _ tr _ => tr

/-- Did the dispatch complete without an exception? -/
def NotifyResult.isOk : NotifyResult α → Bool
  | .ok _ _ => true
  | .threw _ _ _ => false

/-- Record one more invoked handler at the front of a dispatch outcome. -/
def consK (k : Nat) : NotifyResult α → NotifyResult α
  | .ok st tr => .ok st (k :: tr)
  | .threw st tr c => .threw st (k :: tr) c

/-- Record a list of invoked handlers at the front of a dispatch outcome. -/
def consKs (ks : List Nat) (r : NotifyResult α) : NotifyResult α :=
  ks.foldr consK r

/-- Run the handlers of a snapshot in order against the live registry.
A `selfUnsub` handler performs `impl->Remove(id)` on its own identity (what
`Subscription::Unsubscribe` does mid-dispatch); a throwing handler aborts the
remaining snapshot, leaving the registry as it stood. -/
def runHandlers (arg : α) : List (Nat × HandlerBeh α) → Impl α → NotifyResult α
  | [], st => .ok st []
  | (k, b) :: rest, st =>
    match b with
    | .plain => consK k (runHandlers arg rest st)
    | .selfUnsub => consK k (runHandlers arg rest (st.remove k))
    | .throwIf p =>
      if p arg then .threw st [k] k
      else consK k (runHandlers arg rest st)

/-- `Impl::Notify`: copy the handlers into a local snapshot under the lock,
release the lock, then invoke the snapshot. -/
def Impl.notify (st : Impl α) (arg : α) : NotifyResult α :=
  runHandlers arg st.handlers st

/-- No handler currently registered in `st` throws on payload `arg`. -/
def Impl.noThrowOn (st : Impl α) (arg : α) : Bool :=
  st.handlers.all fun p => !(behThrows arg p.2)

/-- An operation on the registry as performed through the public API:
`Subscribe` (an `Impl::Add`) or an unsubscribe reaching `Impl::Remove`. -/
inductive ImplOp (α : Type) where
  | subscribe (h : HandlerBeh α)
  | removeId (k : Nat)

/-- Apply one operation to the registry. -/
def applyOp (st : Impl α) : ImplOp α → Impl α
  | .subscribe h => (st.add h).1
  | .removeId k => st.remove k

/-- Apply a sequence of operations to the registry. -/
def applyOps (st : Impl α) (ops : List (ImplOp α)) : Impl α :=
  ops.foldl applyOp st

/-- The identities handed out by the `subscribe` operations of a sequence,
in order. -/
def issuedFrom (st : Impl α) : List (ImplOp α) → List Nat
  | [] => []
  | .subscribe h :: rest =>
    (st.add h).2 :: issuedFrom (st.add h).1 rest
  | .removeId k :: rest => issuedFrom (st.remove k) rest

/-- Well-formedness of a registry: identities are pairwise distinct and never
exceed the counter.  This is the map invariant every reachable state enjoys. -/
def Impl.WF (st : Impl α) : Prop :=
  (keysOf st.handlers).Nodup ∧ ∀ k ∈ keysOf st.handlers, k ≤ st.currentId

/-! ### Association-list lemmas -/

@[simp]
theorem keysOf_nil : keysOf ([] : List (Nat × β)) = [] := rfl

@[simp]
theorem keysOf_cons (p : Nat × β) (l : List (Nat × β)) :
    keysOf (p :: l) = p.1 :: keysOf l := rfl

theorem keysOf_append (l l' : List (Nat × β)) :
    keysOf (l ++ l') = keysOf l ++ keysOf l' := by
  simp [keysOf]

theorem lookupId_eq_none_iff {l : List (Nat × β)} {k : Nat} :
    lookupId k l = none ↔ k ∉ keysOf l := by
  induction l with
  | nil => simp [lookupId]
  | cons p rest ih =>
    obtain ⟨k', v⟩ := p
    by_cases hk : k' = k
    · subst hk
      simp [lookupId]
    · rw [keysOf_cons, List.mem_cons, not_or]
      simp only [lookupId, if_neg hk]
      rw [ih]
      constructor
      · intro hnone
        exact ⟨fun h => hk h.symm, hnone⟩
      · intro hpair
        exact hpair.2

theorem mem_keys_of_lookupId_some {l : List (Nat × β)} {k : Nat} {b : β}
    (h : lookupId k l = some b) : k ∈ keysOf l := by
  by_contra hmem
  rw [← lookupId_eq_none_iff] at hmem
  rw [hmem] at h
  exact Option.noConfusion h

theorem mem_of_lookupId_some {l : List (Nat × β)} {k : Nat} {b : β}
    (h : lookupId k l = some b) : (k, b) ∈ l := by
  induction l with
  | nil => exact absurd h (by simp [lookupId])
  | cons p rest ih =>
    obtain ⟨k', v⟩ := p
    by_cases hk : k' = k
    · subst hk
      simp [lookupId] at h
      simp [h]
    · simp only [lookupId, if_neg hk] at h
      exact List.mem_cons_of_mem _ (ih h)

theorem lookupId_storePair_self (l : List (Nat × β)) (k : Nat) (v : β) :
    lookupId k (storePair k v l) = some v := by
  induction l with
  | nil => simp [storePair, lookupId]
  | cons p rest ih =>
    obtain ⟨k', v'⟩ := p
    by_cases hk : k' = k
    · subst hk
      simp [storePair, lookupId]
    · simp [storePair, hk, lookupId, ih]

theorem lookupId_storePair_other (l : List (Nat × β)) {j k : Nat} (v : β)
    (hjk : j ≠ k) : lookupId j (storePair k v l) = lookupId j l := by
  induction l with
  | nil => simp [storePair, lookupId, Ne.symm hjk]
  | cons p rest ih =>
    obtain ⟨k', v'⟩ := p
    by_cases hk : k' = k
    · subst hk
      simp [storePair, lookupId, Ne.symm hjk]
    · by_cases hj : k' = j
      · subst hj
        simp [storePair, hk, lookupId]
      · simp [storePair, hk, lookupId, hj, ih]

theorem storePair_of_not_mem (l : List (Nat × β)) {k : Nat} (v : β)
    (hk : k ∉ keysOf l) : storePair k v l = l ++ [(k, v)] := by
  induction l with
  | nil => simp [storePair]
  | cons p rest ih =>
    obtain ⟨k', v'⟩ := p
    rw [keysOf_cons, List.mem_cons, not_or] at hk
    have hne : ¬k' = k := fun h => hk.1 h.symm
    simp only [storePair, if_neg hne]
    rw [ih hk.2, List.cons_append]

theorem eraseId_sublist (k : Nat) (l : List (Nat × β)) :
    (eraseId k l).Sublist l := by
  induction l with
  | nil => simp [eraseId]
  | cons p rest ih =>
    obtain ⟨k', v'⟩ := p
    by_cases hk : k' = k
    · simp only [eraseId, if_pos hk]
      exact List.sublist_cons_self _ _
    · simp only [eraseId, if_neg hk]
      exact ih.cons₂ _

theorem keysOf_eraseId_sublist (k : Nat) (l : List (Nat × β)) :
    (keysOf (eraseId k l)).Sublist (keysOf l) :=
  (eraseId_sublist k l).map Prod.fst

theorem lookupId_eraseId_self {l : List (Nat × β)} {k : Nat}
    (hnd : (keysOf l).Nodup) : lookupId k (eraseId k l) = none := by
  induction l with
  | nil => simp [eraseId, lookupId]
  | cons p rest ih =>
    obtain ⟨k', v'⟩ := p
    rw [keysOf_cons, List.nodup_cons] at hnd
    by_cases hk : k' = k
    · subst hk
      simp only [eraseId, if_pos rfl]
      exact lookupId_eq_none_iff.mpr hnd.1
    · simp only [eraseId, if_neg hk, lookupId, if_neg hk]
      exact ih hnd.2

theorem lookupId_eraseId_other {l : List (Nat × β)} {j k : Nat} (hjk : j ≠ k) :
    lookupId j (eraseId k l) = lookupId j l := by
  induction l with
  | nil => simp [eraseId]
  | cons p rest ih =>
    obtain ⟨k', v'⟩ := p
    by_cases hk : k' = k
    · subst hk
      simp [eraseId, lookupId, Ne.symm hjk]
    · simp [eraseId, hk, lookupId, ih]

theorem lookupId_eraseId_none {l : List (Nat × β)} {j k : Nat}
    (h : lookupId j l = none) : lookupId j (eraseId k l) = none := by
  rw [lookupId_eq_none_iff] at h ⊢
  intro hmem
  exact h ((keysOf_eraseId_sublist k l).mem hmem)

/-! ### Dispatch lemmas -/

@[simp]
theorem consK_state (k : Nat) (r : NotifyResult α) : (consK k r).state = r.state := by
  cases r <;> rfl

@[simp]
theorem consK_trace (k : Nat) (r : NotifyResult α) : (consK k r).trace = k :: r.trace := by
  cases r <;> rfl

@[simp]
theorem consK_isOk (k : Nat) (r : NotifyResult α) : (consK k r).isOk = r.isOk := by
  cases r <;> rfl

@[simp]
theorem consKs_state (ks : List Nat) (r : NotifyResult α) :
    (consKs ks r).state = r.state := by
  induction ks with
  | nil => rfl
  | cons k ks ih => simp [consKs, List.foldr_cons] at ih ⊢; rw [ih]

@[simp]
theorem consKs_trace (ks : List Nat) (r : NotifyResult α) :
    (consKs ks r).trace = ks ++ r.trace := by
  induction ks with
  | nil => rfl
  | cons k ks ih => simp [consKs, List.foldr_cons] at ih ⊢; rw [ih]

theorem consKs_threw (ks : List Nat) (st : Impl α) (tr : List Nat) (c : Nat) :
    consKs ks (.threw st tr c) = .threw st (ks ++ tr) c := by
  induction ks with
  | nil => rfl
  | cons k ks ih => simp [consKs, List.foldr_cons] at ih ⊢; rw [ih]; rfl

/-- A dispatch in which no snapshotted handler throws completes normally and
invokes exactly the snapshot, in snapshot order. -/
theorem runHandlers_noThrow {l : List (Nat × HandlerBeh α)} {arg : α}
    (hnt : ∀ p ∈ l, behThrows arg p.2 = false) (st : Impl α) :
    (runHandlers arg l st).isOk = true ∧ (runHandlers arg l st).trace = keysOf l := by
  induction l generalizing st with
  | nil => exact ⟨rfl, rfl⟩
  | cons p rest ih =>
    obtain ⟨k, b⟩ := p
    have hrest : ∀ p ∈ rest, behThrows arg p.2 = false :=
      fun p hp => hnt p (List.mem_cons_of_mem _ hp)
    cases b with
    | plain =>
      have := ih hrest st
      simp [runHandlers, this.1, this.2]
    | selfUnsub =>
      have := ih hrest (st.remove k)
      simp [runHandlers, this.1, this.2]
    | throwIf p =>
      have hp : p arg = false := hnt _ (List.mem_cons_self _ _)
      have := ih hrest st
      simp [runHandlers, hp, this.1, this.2]

/-- Handlers with no registry effect leave the registry untouched and are
simply recorded at the front of whatever the rest of the snapshot does. -/
theorem runHandlers_plain_prefix {pre : List (Nat × HandlerBeh α)}
    (hp : ∀ p ∈ pre, p.2 = HandlerBeh.plain)
    (rest : List (Nat × HandlerBeh α)) (arg : α) (st : Impl α) :
    runHandlers arg (pre ++ rest) st = consKs (keysOf pre) (runHandlers arg rest st) := by
  induction pre with
  | nil => rfl
  | cons p pre ih =>
    obtain ⟨k, b⟩ := p
    have hb : b = HandlerBeh.plain := hp _ (List.mem_cons_self _ _)
    subst hb
    have h2 := ih (fun p hp' => hp p (List.mem_cons_of_mem _ hp'))
    show consK k (runHandlers arg (pre ++ rest) st)
        = consK k (consKs (keysOf pre) (runHandlers arg rest st))
    rw [h2]

/-- Every identity a dispatch invokes comes from its snapshot. -/
theorem runHandlers_trace_subset {l : List (Nat × HandlerBeh α)} {arg : α}
    (st : Impl α) : (runHandlers arg l st).trace ⊆ keysOf l := by
  induction l generalizing st with
  | nil => simp [runHandlers, NotifyResult.trace]
  | cons p rest ih =>
    obtain ⟨k, b⟩ := p
    cases b with
    | plain =>
      simp only [runHandlers, consK_trace, keysOf_cons]
      exact List.cons_subset_cons _ (ih st)
    | selfUnsub =>
      simp only [runHandlers, consK_trace, keysOf_cons]
      exact List.cons_subset_cons _ (ih (st.remove k))
    | throwIf p =>
      by_cases hp : p arg
      · simp [runHandlers, hp, NotifyResult.trace]
      · have h2 := List.cons_subset_cons k (ih st)
        simpa [runHandlers, hp] using h2

/-- A dispatch never re-adds an identity: one absent from the registry when
the dispatch starts is still absent when it ends. -/
theorem runHandlers_absent {l : List (Nat × HandlerBeh α)} {arg : α} {k : Nat}
    (st : Impl α) (h : lookupId k st.handlers = none) :
    lookupId k (runHandlers arg l st).state.handlers = none := by
  induction l generalizing st with
  | nil => exact h
  | cons p rest ih =>
    obtain ⟨k', b⟩ := p
    cases b with
    | plain => simpa [runHandlers] using ih st h
    | selfUnsub =>
      simp only [runHandlers, consK_state]
      exact ih (st.remove k') (lookupId_eraseId_none h)
    | throwIf p =>
      by_cases hp : p arg
      · simpa [runHandlers, hp, NotifyResult.state] using h
      · simpa [runHandlers, hp] using ih st h

/-- A dispatch keeps the registry keys duplicate-free. -/
theorem runHandlers_nodup {l : List (Nat × HandlerBeh α)} {arg : α}
    (st : Impl α) (h : (keysOf st.handlers).Nodup) :
    (keysOf (runHandlers arg l st).state.handlers).Nodup := by
  induction l generalizing st with
  | nil => exact h
  | cons p rest ih =>
    obtain ⟨k', b⟩ := p
    cases b with
    | plain => simpa [runHandlers] using ih st h
    | selfUnsub =>
      simp only [runHandlers, consK_state]
      exact ih (st.remove k') ((keysOf_eraseId_sublist _ _).nodup h)
    | throwIf p =>
      by_cases hp : p arg
      · simpa [runHandlers, hp, NotifyResult.state] using h
      · simpa [runHandlers, hp] using ih st h

/-- A handler that unsubscribes itself during a completed dispatch is gone
from the registry afterwards. -/
theorem runHandlers_selfUnsub_removed {l : List (Nat × HandlerBeh α)} {arg : α}
    {k : Nat} (st : Impl α) (hnd : (keysOf st.handlers).Nodup)
    (hmem : (k, HandlerBeh.selfUnsub) ∈ l)
    (hok : (runHandlers arg l st).isOk = true) :
    lookupId k (runHandlers arg l st).state.handlers = none := by
  induction l generalizing st with
  | nil => exact absurd hmem (List.not_mem_nil _)
  | cons p rest ih =>
    obtain ⟨k', b⟩ := p
    rcases List.mem_cons.mp hmem with hhead | htail
    · obtain ⟨hk, hb⟩ := Prod.mk.injEq .. ▸ hhead
      subst hk
      cases hb
      simp only [runHandlers, consK_state]
      exact runHandlers_absent (st.remove k) (lookupId_eraseId_self hnd)
    · cases b with
      | plain =>
        simp only [runHandlers, consK_state, consK_isOk] at hok ⊢
        exact ih st hnd htail hok
      | selfUnsub =>
        simp only [runHandlers, consK_state, consK_isOk] at hok ⊢
        exact ih (st.remove k') ((keysOf_eraseId_sublist _ _).nodup hnd) htail hok
      | throwIf p =>
        by_cases hp : p arg
        · simp [runHandlers, hp, NotifyResult.isOk] at hok
        · have hok' : (runHandlers arg rest st).isOk = true := by
            simpa [runHandlers, hp] using hok
          simpa [runHandlers, hp] using ih st hnd htail hok'

/-! ### Reachability and the registry invariant -/

theorem WF_init : (Impl.init : Impl α).WF := by
  constructor
  · simp [Impl.init, Impl.WF]
  · intro k hk
    simp [Impl.init] at hk

theorem WF_add {st : Impl α} (h : st.WF) (b : HandlerBeh α) : (st.add b).1.WF := by
  obtain ⟨hnd, hle⟩ := h
  have hfresh : st.currentId + 1 ∉ keysOf st.handlers := by
    intro hmem
    exact absurd (hle _ hmem) (by omega)
  constructor
  · rw [Impl.add]
    simp only
    rw [storePair_of_not_mem _ _ hfresh, keysOf_append]
    simp only [keysOf_cons, keysOf_nil]
    rw [List.nodup_append]
    refine ⟨hnd, List.nodup_singleton _, ?_⟩
    intro x hx hy
    simp at hy
    subst hy
    exact hfresh hx
  · intro k hk
    rw [Impl.add] at hk
    simp only at hk
    rw [storePair_of_not_mem _ _ hfresh, keysOf_append] at hk
    rcases List.mem_append.mp hk with hk | hk
    · exact le_trans (hle _ hk) (by simp [Impl.add])
    · simp at hk
      simp [Impl.add, hk]

theorem WF_remove {st : Impl α} (h : st.WF) (k : Nat) : (st.remove k).WF := by
  obtain ⟨hnd, hle⟩ := h
  exact ⟨(keysOf_eraseId_sublist _ _).nodup hnd,
    fun j hj => hle _ ((keysOf_eraseId_sublist _ _).mem hj)⟩

theorem WF_applyOp {st : Impl α} (h : st.WF) (op : ImplOp α) : (applyOp st op).WF := by
  cases op with
  | subscribe b => exact WF_add h b
  | removeId k => exact WF_remove h k

theorem WF_applyOps {st : Impl α} (h : st.WF) (ops : List (ImplOp α)) :
    (applyOps st ops).WF := by
  induction ops generalizing st with
  | nil => exact h
  | cons op ops ih => exact ih (WF_applyOp h op)

/-! ### Identity issuance lemmas -/

theorem currentId_applyOp_le (st : Impl α) (op : ImplOp α) :
    st.currentId ≤ (applyOp st op).currentId := by
  cases op with
  | subscribe b => simp [applyOp, Impl.add]
  | removeId k => simp [applyOp, Impl.remove]

theorem issuedFrom_gt (st : Impl α) (ops : List (ImplOp α)) :
    ∀ x ∈ issuedFrom st ops, st.currentId < x := by
  induction ops generalizing st with
  | nil => intro x hx; exact absurd hx (List.not_mem_nil _)
  | cons op ops ih =>
    intro x hx
    cases op with
    | subscribe b =>
      simp only [issuedFrom, List.mem_cons] at hx
      rcases hx with rfl | hx
    -- the freshly issued id is currentId + 1
      · simp [Impl.add]
      · have := ih (st.add b).1 x hx
        simp only [Impl.add] at this
        omega
    | removeId k =>
      simp only [issuedFrom] at hx
      have := ih (st.remove k) x hx
      simpa [Impl.remove] using this

theorem issuedFrom_pairwise (st : Impl α) (ops : List (ImplOp α)) :
    (issuedFrom st ops).Pairwise (· < ·) := by
  induction ops generalizing st with
  | nil => exact List.Pairwise.nil
  | cons op ops ih =>
    cases op with
    | subscribe b =>
      simp only [issuedFrom]
      refine List.Pairwise.cons ?_ (ih _)
      intro x hx
      have := issuedFrom_gt (st.add b).1 ops x hx
      simp only [Impl.add] at this ⊢
      omega
    | removeId k => exact ih _

/-! ### Claim theorems about the dispatch core -/

/-- C7: `Subscribe(handler)` (through `Impl::Add`) allocates the identity
current-counter-plus-one, updates the counter to that value, stores the
handler under that identity, changes no other registry entry, and always
succeeds (the operation is a total function); identities handed out over any
sequence of operations within one Event's lifetime are strictly increasing
and never reused. -/
theorem add_allocates_fresh_strictly_increasing_identities {α : Type}
    (st : Impl α) (b : HandlerBeh α) (ops : List (ImplOp α)) :
    (st.add b).2 = st.currentId + 1 ∧
    (st.add b).1.currentId = st.currentId + 1 ∧
    lookupId (st.currentId + 1) (st.add b).1.handlers = some b ∧
    (∀ j, j ≠ st.currentId + 1 →
      lookupId j (st.add b).1.handlers = lookupId j st.handlers) ∧
    (issuedFrom (Impl.init : Impl α) ops).Pairwise (· < ·) ∧
    (issuedFrom (Impl.init : Impl α) ops).Nodup := by
  refine ⟨rfl, rfl, lookupId_storePair_self _ _ _, ?_, issuedFrom_pairwise _ _, ?_⟩
  · intro j hj
    exact lookupId_storePair_other _ _ hj
  · exact (issuedFrom_pairwise (Impl.init : Impl α) ops).imp fun h => ne_of_lt h

theorem add_allocates_fresh_strictly_increasing_identities_witness :
    lookupId 1 ((Impl.init : Impl Int).add .plain).1.handlers = some .plain :=
  (add_allocates_fresh_strictly_increasing_identities
    (Impl.init : Impl Int) .plain [.subscribe .plain, .removeId 1]).2.2.1

/-- C3: on any registry state reached by a sequence of Subscribe/Unsubscribe
operations, a single `Notify(args)` call in which no handler throws completes
normally, invokes exactly the snapshotted handlers in snapshot order, and
invokes each currently registered handler exactly once, so the number of
invocations equals the number of handlers registered when the snapshot was
taken. -/
theorem notify_invokes_each_registered_handler_exactly_once {α : Type}
    (st : Impl α) (ops : List (ImplOp α)) (arg : α)
    (hst : st = applyOps Impl.init ops)
    (hnt : st.noThrowOn arg = true) :
    (st.notify arg).isOk = true ∧
    (st.notify arg).trace = keysOf st.handlers ∧
    (st.notify arg).trace.length = st.handlers.length ∧
    ∀ k ∈ keysOf st.handlers, (st.notify arg).trace.count k = 1 := by
  have hnt' : ∀ p ∈ st.handlers, behThrows arg p.2 = false := by
    intro p hp
    have := (List.all_eq_true.mp hnt) p hp
    simpa using this
  obtain ⟨hok, htr⟩ := runHandlers_noThrow hnt' st
  have hnd : (keysOf st.handlers).Nodup := by
    subst hst
    exact (WF_applyOps WF_init ops).1
  refine ⟨hok, htr, ?_, ?_⟩
  · simp only [Impl.notify]
    rw [htr]
    simp [keysOf]
  · intro k hk
    simp only [Impl.notify]
    rw [htr]
    exact List.count_eq_one_of_mem hnd hk

theorem notify_invokes_each_registered_handler_exactly_once_witness :
    ((applyOps (Impl.init : Impl Int)
        [.subscribe .plain, .subscribe .selfUnsub]).notify 0).isOk = true :=
  (notify_invokes_each_registered_handler_exactly_once _
    [.subscribe .plain, .subscribe .selfUnsub] 0 rfl rfl).1

/-- C2: a handler that unsubscribes itself during its own invocation is
invoked exactly once by the `Notify` call dispatching it (the dispatch runs
the snapshot taken before any handler ran, so the mid-dispatch removal does
not disturb that call), its identity is gone from the registry afterwards,
and every later `Notify` call invokes it zero times. -/
theorem notify_self_unsubscribing_handler_invoked_exactly_once {α : Type}
    (st : Impl α) (ops : List (ImplOp α)) (arg : α) (k : Nat)
    (hst : st = applyOps Impl.init ops)
    (hsub : lookupId k st.handlers = some HandlerBeh.selfUnsub)
    (hnt : st.noThrowOn arg = true) :
    (st.notify arg).isOk = true ∧
    (st.notify arg).trace = keysOf st.handlers ∧
    (st.notify arg).trace.count k = 1 ∧
    lookupId k (st.notify arg).state.handlers = none ∧
    ∀ arg', ((st.notify arg).state.notify arg').trace.count k = 0 := by
  have hnt' : ∀ p ∈ st.handlers, behThrows arg p.2 = false := by
    intro p hp
    have := (List.all_eq_true.mp hnt) p hp
    simpa using this
  obtain ⟨hok, htr⟩ := runHandlers_noThrow hnt' st
  have hnd : (keysOf st.handlers).Nodup := by
    subst hst
    exact (WF_applyOps WF_init ops).1
  have hgone : lookupId k (st.notify arg).state.handlers = none :=
    runHandlers_selfUnsub_removed st hnd (mem_of_lookupId_some hsub) hok
  refine ⟨hok, htr, ?_, hgone, ?_⟩
  · simp only [Impl.notify]
    rw [htr]
    exact List.count_eq_one_of_mem hnd (mem_keys_of_lookupId_some hsub)
  · intro arg'
    refine List.count_eq_zero_of_not_mem ?_
    intro hmem
    have hsubset : ((st.notify arg).state.notify arg').trace ⊆
        keysOf (st.notify arg).state.handlers :=
      runHandlers_trace_subset ((st.notify arg).state)
    have : k ∈ keysOf (st.notify arg).state.handlers := hsubset hmem
    exact (lookupId_eq_none_iff.mp hgone) this

theorem notify_self_unsubscribing_handler_invoked_exactly_once_witness :
    ((applyOps (Impl.init : Impl Int) [.subscribe .selfUnsub]).notify 0).trace.count 1 = 1 :=
  (notify_self_unsubscribing_handler_invoked_exactly_once _
    [.subscribe .selfUnsub] 0 1 rfl rfl rfl).2.2.1

/-- The registry state after the handlers of a snapshot prefix have run
without throwing: each self-unsubscribing handler removed its own identity,
every other handler left the registry alone. -/
def applySelfUnsubs : List (Nat × HandlerBeh α) → Impl α → Impl α
  | [], st => st
  | (k, b) :: pre, st =>
    match b with
    | .selfUnsub => applySelfUnsubs pre (st.remove k)
    | _ => applySelfUnsubs pre st

/-- A non-throwing snapshot prefix is invoked in order and affects the
registry exactly by the self-unsubscribes it performs. -/
theorem runHandlers_noThrow_prefix {pre : List (Nat × HandlerBeh α)} {arg : α}
    (hpre : ∀ q ∈ pre, behThrows arg q.2 = false)
    (rest : List (Nat × HandlerBeh α)) (st : Impl α) :
    runHandlers arg (pre ++ rest) st
      = consKs (keysOf pre) (runHandlers arg rest (applySelfUnsubs pre st)) := by
  induction pre generalizing st with
  | nil => rfl
  | cons q pre ih =>
    obtain ⟨k', b⟩ := q
    have hq := hpre _ (List.mem_cons_self _ _)
    have htail : ∀ q ∈ pre, behThrows arg q.2 = false :=
      fun q hq' => hpre q (List.mem_cons_of_mem _ hq')
    cases b with
    | plain =>
      show consK k' (runHandlers arg (pre ++ rest) st)
          = consK k' (consKs (keysOf pre) (runHandlers arg rest (applySelfUnsubs pre st)))
      rw [ih htail]
    | selfUnsub =>
      show consK k' (runHandlers arg (pre ++ rest) (st.remove k'))
          = consK k' (consKs (keysOf pre)
              (runHandlers arg rest (applySelfUnsubs pre (st.remove k'))))
      rw [ih htail]
    | throwIf p =>
      have hp : p arg = false := by simpa [behThrows] using hq
      show (if p arg = true then NotifyResult.threw st [k'] k'
            else consK k' (runHandlers arg (pre ++ rest) st))
          = consK k' (consKs (keysOf pre) (runHandlers arg rest (applySelfUnsubs pre st)))
      rw [hp, if_neg (by decide), ih htail]

/-- An identity no prefix handler self-unsubscribed still resolves as before
the prefix ran. -/
theorem lookupId_applySelfUnsubs_not_mem {pre : List (Nat × HandlerBeh α)} {j : Nat}
    (st : Impl α) (h : (j, HandlerBeh.selfUnsub) ∉ pre) :
    lookupId j (applySelfUnsubs pre st).handlers = lookupId j st.handlers := by
  induction pre generalizing st with
  | nil => rfl
  | cons q pre ih =>
    obtain ⟨k', b⟩ := q
    have htail : (j, HandlerBeh.selfUnsub) ∉ pre :=
      fun hm => h (List.mem_cons_of_mem _ hm)
    cases b with
    | plain => exact ih st htail
    | throwIf p => exact ih st htail
    | selfUnsub =>
      have hj : j ≠ k' := by
        intro hj
        subst hj
        exact h (List.mem_cons_self _ _)
      show lookupId j (applySelfUnsubs pre (st.remove k')).handlers = _
      rw [ih (st.remove k') htail]
      exact lookupId_eraseId_other hj

/-- A prefix containing no self-unsubscribing handler leaves the registry
untouched. -/
theorem applySelfUnsubs_eq_of_no_selfUnsub {pre : List (Nat × HandlerBeh α)}
    (st : Impl α) (h : ∀ q ∈ pre, q.2 ≠ HandlerBeh.selfUnsub) :
    applySelfUnsubs pre st = st := by
  induction pre generalizing st with
  | nil => rfl
  | cons q pre ih =>
    obtain ⟨k', b⟩ := q
    have htail : ∀ q ∈ pre, q.2 ≠ HandlerBeh.selfUnsub :=
      fun q hq => h q (List.mem_cons_of_mem _ hq)
    cases b with
    | plain => exact ih st htail
    | throwIf p => exact ih st htail
    | selfUnsub => exact absurd rfl (h _ (List.mem_cons_self _ _))

/-- The frozen form of C4 fails on the code: in the `Notify(42)` dispatch
over handlers {1: self-unsubscribing, 2: throws on 42}, handler 1 runs first
and erases itself from the live map, then handler 2 throws — so the dispatch
throws, yet the registry after the failed dispatch no longer holds
identity 1, which it held before: the registry is NOT left unchanged by a
dispatch in which some handler throws. -/
theorem notify_throwing_dispatch_can_change_registry :
    ((applyOps (Impl.init : Impl Int)
        [.subscribe .selfUnsub, .subscribe (.throwIf fun v => v == 42)]).notify 42).isOk
      = false ∧
    ((applyOps (Impl.init : Impl Int)
        [.subscribe .selfUnsub, .subscribe (.throwIf fun v => v == 42)]).notify 42).trace
      = [1, 2] ∧
    lookupId 1 ((applyOps (Impl.init : Impl Int)
        [.subscribe .selfUnsub, .subscribe (.throwIf fun v => v == 42)]).notify
          42).state.handlers
      = none ∧
    lookupId 1 (applyOps (Impl.init : Impl Int)
        [.subscribe .selfUnsub, .subscribe (.throwIf fun v => v == 42)]).handlers
      = some HandlerBeh.selfUnsub :=
  ⟨rfl, rfl, rfl, rfl⟩

/-- C4 (amended): when a snapshotted handler throws during `Notify` (the
handlers before it in the snapshot not throwing on that payload), the
exception propagates out immediately with that handler as culprit and the
handlers after it in the snapshot are not invoked; the failed dispatch
changes the registry only through the unsubscribes explicitly performed by
the handlers invoked before the throw — in particular, when none of them
self-unsubscribes, the registry is left unchanged — and a subsequent
`Notify` call (with no handler throwing) behaves normally over the
then-registered handlers. -/
theorem notify_throwing_handler_aborts_rest_registry_changed_only_by_unsubs
    {α : Type}
    (st : Impl α) (ops : List (ImplOp α)) (arg : α) (k : Nat) (p : α → Bool)
    (pre post : List (Nat × HandlerBeh α))
    (hst : st = applyOps Impl.init ops)
    (hsplit : st.handlers = pre ++ (k, HandlerBeh.throwIf p) :: post)
    (hthrow : p arg = true)
    (hpre : ∀ q ∈ pre, behThrows arg q.2 = false) :
    st.notify arg = NotifyResult.threw (applySelfUnsubs pre st) (keysOf pre ++ [k]) k ∧
    (∀ j ∈ keysOf post, j ∉ keysOf pre ++ [k]) ∧
    (∀ j, lookupId j (st.notify arg).state.handlers ≠ lookupId j st.handlers →
      (j, HandlerBeh.selfUnsub) ∈ pre) ∧
    ((∀ q ∈ pre, q.2 ≠ HandlerBeh.selfUnsub) → (st.notify arg).state = st) ∧
    (∀ arg', st.noThrowOn arg' = true →
      (st.notify arg').isOk = true ∧ (st.notify arg').trace = keysOf st.handlers) := by
  have hnd : (keysOf st.handlers).Nodup := by
    subst hst
    exact (WF_applyOps WF_init ops).1
  have hmain : st.notify arg
      = NotifyResult.threw (applySelfUnsubs pre st) (keysOf pre ++ [k]) k := by
    show runHandlers arg st.handlers st = _
    rw [hsplit, runHandlers_noThrow_prefix hpre]
    have hhead : runHandlers arg ((k, HandlerBeh.throwIf p) :: post) (applySelfUnsubs pre st)
        = NotifyResult.threw (applySelfUnsubs pre st) [k] k := by
      simp [runHandlers, hthrow]
    rw [hhead, consKs_threw]
  have hstate : (st.notify arg).state = applySelfUnsubs pre st := by
    rw [hmain]
    rfl
  refine ⟨hmain, ?_, ?_, ?_, ?_⟩
  · rw [hsplit, keysOf_append, keysOf_cons] at hnd
    rw [List.nodup_append] at hnd
    obtain ⟨hnd1, hnd2, hdisj⟩ := hnd
    intro j hj
    rw [List.mem_append, List.mem_singleton]
    rintro (hjpre | rfl)
    · exact hdisj hjpre (List.mem_cons_of_mem _ hj)
    · exact (List.nodup_cons.mp hnd2).1 hj
  · intro j hne
    by_contra hmem
    apply hne
    rw [hstate]
    exact lookupId_applySelfUnsubs_not_mem st hmem
  · intro hnone
    rw [hstate]
    exact applySelfUnsubs_eq_of_no_selfUnsub st hnone
  · intro arg' hnt'
    have h' : ∀ q ∈ st.handlers, behThrows arg' q.2 = false := by
      intro q hq
      have := (List.all_eq_true.mp hnt') q hq
      simpa using this
    exact runHandlers_noThrow h' st

theorem notify_throwing_handler_aborts_rest_registry_changed_only_by_unsubs_witness :
    ((applyOps (Impl.init : Impl Int)
        [.subscribe .plain, .subscribe (.throwIf fun v => v == 42),
          .subscribe .plain]).notify 42).state
      = applyOps (Impl.init : Impl Int)
          [.subscribe .plain, .subscribe (.throwIf fun v => v == 42),
            .subscribe .plain] :=
  (notify_throwing_handler_aborts_rest_registry_changed_only_by_unsubs _
    [.subscribe .plain, .subscribe (.throwIf fun v => v == 42), .subscribe .plain]
    42 2 (fun v => v == 42) [(1, .plain)] [(3, .plain)] rfl rfl rfl
    (by intro q hq; rw [List.mem_singleton] at hq; subst hq; rfl)).2.2.2.1
    (by
      intro q hq
      rw [List.mem_singleton] at hq
      subst hq
      intro hcon
      exact HandlerBeh.noConfusion hcon)

/-! ### Subscription tokens and the weak-reference lifetime protocol

The `Event` holds its `Impl` through a `shared_ptr`; we model the shared
registry as `Option (Impl α)`: `some impl` while the Event is alive, `none`
once the Event (and with it the registry) has been destroyed.  Each token's
closures capture a `weak_ptr` to that registry plus the identity to remove. -/

/-- The state captured by the unsubscribe lambda of `Event::Subscribe`:
a weak reference (`hasRef` records whether `weakImpl` has been reset) and the
identity to remove. -/
structure UnsubClosure where
  hasRef : Bool
  id : Nat

/-- `Subscription`: `std::function<void()> unsubscribeFunc` (modelled by
`Option UnsubClosure`, `none` = null) and `std::function<bool()> isValidFunc`
(`validFlag` records whether it is non-null; when non-null it evaluates
`!weakImpl.expired()`). -/
structure Subscription where
  unsub : Option UnsubClosure
  validFlag : Bool

/-- A default-constructed `Subscription()`: both functions null. -/
def Subscription.empty : Subscription := ⟨none, false⟩

/-- `Subscription::Unsubscribe`: if `unsubscribeFunc` is non-null, run it
(lock the weak reference; if the registry is still alive, `Remove(id)`), then
null out both functions.  Returns the token's new state and the registry's. -/
def Subscription.unsubscribeOp {α : Type} (s : Subscription) (w : Option (Impl α)) :
    Subscription × Option (Impl α) :=
  match s.unsub with
  | none => (s, w)
  | some c =>
    let w' := if c.hasRef then
        match w with
        | some impl => some (impl.remove c.id)
        | none => none
      else w
    (⟨none, false⟩, w')

/-- `Subscription::IsValid`: `isValidFunc && isValidFunc()`, where the probe
is `!weakImpl.expired()`, i.e. the registry still exists. -/
def Subscription.isValidAt {α : Type} (s : Subscription) (w : Option (Impl α)) : Bool :=
  s.validFlag && w.isSome

/-- `Event::Subscribe`: add the handler, and hand out a token whose closures
capture the weak reference and the fresh identity. -/
def subscribeOp {α : Type} (st : Impl α) (b : HandlerBeh α) : Impl α × Subscription :=
  ((st.add b).1, ⟨some ⟨true, (st.add b).2⟩, true⟩)

/-- Look an identity up through the (possibly destroyed) shared registry. -/
def lookupW {α : Type} (k : Nat) : Option (Impl α) → Option (HandlerBeh α)
  | some impl => lookupId k impl.handlers
  | none => none

/-- Unsubscribing one token never disturbs a different identity's entry. -/
theorem unsubscribeOp_preserves_other_ids {α : Type} (c : UnsubClosure) (v : Bool)
    (w : Option (Impl α)) {j : Nat} (hj : j ≠ c.id) :
    lookupW j ((Subscription.mk (some c) v).unsubscribeOp w).2 = lookupW j w := by
  simp only [Subscription.unsubscribeOp]
  by_cases hr : c.hasRef
  · match w with
    | none => simp [hr]
    | some impl =>
      simp only [hr, if_true, lookupW, Impl.remove]
      exact lookupId_eraseId_other hj
  · simp [hr]

/-- C1: once the Event's shared registry state is destroyed, every
Subscription — regardless of how many are outstanding or in what order
things were torn down — observes `IsValid() == false`, and `Unsubscribe()`
returns normally, leaves the (absent) registry untouched, and leaves the
token permanently invalid. -/
theorem destroyed_event_invalidates_every_subscription {α : Type} (s : Subscription) :
    s.isValidAt (none : Option (Impl α)) = false ∧
    (s.unsubscribeOp (none : Option (Impl α))).2 = none ∧
    ((s.unsubscribeOp (none : Option (Impl α))).1).isValidAt
      (none : Option (Impl α)) = false := by
  refine ⟨?_, ?_, ?_⟩
  · simp [Subscription.isValidAt]
  · match hs : s.unsub with
    | none => simp [Subscription.unsubscribeOp, hs]
    | some c =>
      simp only [Subscription.unsubscribeOp, hs]
      by_cases hr : c.hasRef <;> simp [hr]
  · simp [Subscription.isValidAt]

/-- C5: `Unsubscribe` is a one-shot terminal transition.  The first call on a
token holding a closure clears both the removal action and the validity
probe, removes only the token's own identity (and only if the registry still
exists); every subsequent call is a no-op leaving both the token and the
registry unchanged, and `IsValid()` reports false from then on, whatever
happens to the registry. -/
theorem unsubscribe_one_shot_terminal {α : Type} (c : UnsubClosure) (v : Bool)
    (w : Option (Impl α)) :
    ((Subscription.mk (some c) v).unsubscribeOp w).1 = ⟨none, false⟩ ∧
    (∀ j, j ≠ c.id →
      lookupW j ((Subscription.mk (some c) v).unsubscribeOp w).2 = lookupW j w) ∧
    (∀ impl, w = some impl → c.hasRef = true →
      ((Subscription.mk (some c) v).unsubscribeOp w).2 = some (impl.remove c.id)) ∧
    (∀ w' : Option (Impl α), (Subscription.mk none false).unsubscribeOp w' =
      (⟨none, false⟩, w')) ∧
    (∀ w' : Option (Impl α), (Subscription.mk none false).isValidAt w' = false) := by
  refine ⟨rfl, ?_, ?_, ?_, ?_⟩
  · intro j hj
    exact unsubscribeOp_preserves_other_ids c v w hj
  · intro impl hw hr
    subst hw
    simp [Subscription.unsubscribeOp, hr]
  · intro w'
    rfl
  · intro w'
    rfl

theorem unsubscribe_one_shot_terminal_witness :
    lookupW 2 ((Subscription.mk (some ⟨true, 1⟩) true).unsubscribeOp
        (some (⟨[(1, HandlerBeh.plain), (2, HandlerBeh.plain)], 2⟩ : Impl Int))).2
      = some HandlerBeh.plain :=
  ((unsubscribe_one_shot_terminal ⟨true, 1⟩ true
      (some (⟨[(1, HandlerBeh.plain), (2, HandlerBeh.plain)], 2⟩ : Impl Int))).2.1
    2 (by decide)).trans rfl

/-! ### ScopedSubscription -/

/-- `ScopedSubscription`: owns exactly one `Subscription`. -/
structure ScopedSubscription where
  subscription : Subscription

/-- The destructor: `subscription.Unsubscribe();` — returns the registry
state it leaves behind. -/
def ScopedSubscription.destruct {α : Type} (ss : ScopedSubscription)
    (w : Option (Impl α)) : Option (Impl α) :=
  (ss.subscription.unsubscribeOp w).2

/-- The move constructor: the destination takes the owned subscription, the
moved-from source is left holding an empty (moved-from `std::function`)
token.  Result: (destination, source after the move). -/
def ScopedSubscription.moveCtor (src : ScopedSubscription) :
    ScopedSubscription × ScopedSubscription :=
  (⟨src.subscription⟩, ⟨Subscription.empty⟩)

/-- Move assignment with `this != &other`: first `subscription.Unsubscribe()`
on the current token, then take the incoming one; the source is left empty.
Result: (new destination, source after the move, registry state). -/
def ScopedSubscription.moveAssign {α : Type} (dst src : ScopedSubscription)
    (w : Option (Impl α)) :
    ScopedSubscription × ScopedSubscription × Option (Impl α) :=
  (⟨src.subscription⟩, ⟨Subscription.empty⟩, (dst.subscription.unsubscribeOp w).2)

/-- C9: destroying a `ScopedSubscription` unsubscribes the owned token;
move-assignment unsubscribes the currently owned token before taking
ownership of the incoming one; moving leaves the source empty, its later
destruction is a no-op, and the moved registration itself stays registered
(now owned by the destination). -/
theorem scoped_subscription_raii {α : Type} (cd cs : UnsubClosure)
    (w : Option (Impl α)) :
    (∀ impl, w = some impl → cd.hasRef = true →
      ScopedSubscription.destruct ⟨⟨some cd, true⟩⟩ w = some (impl.remove cd.id)) ∧
    ((ScopedSubscription.moveAssign ⟨⟨some cd, true⟩⟩ ⟨⟨some cs, true⟩⟩ w).2.2 =
      ((Subscription.mk (some cd) true).unsubscribeOp w).2) ∧
    ((ScopedSubscription.moveAssign ⟨⟨some cd, true⟩⟩ ⟨⟨some cs, true⟩⟩ w).1 =
      ⟨⟨some cs, true⟩⟩) ∧
    ((ScopedSubscription.moveAssign ⟨⟨some cd, true⟩⟩ ⟨⟨some cs, true⟩⟩ w).2.1 =
      ⟨Subscription.empty⟩) ∧
    ((ScopedSubscription.moveCtor ⟨⟨some cs, true⟩⟩).2 = ⟨Subscription.empty⟩) ∧
    (∀ w' : Option (Impl α), ScopedSubscription.destruct ⟨Subscription.empty⟩ w' = w') ∧
    (cs.id ≠ cd.id →
      lookupW cs.id (ScopedSubscription.moveAssign ⟨⟨some cd, true⟩⟩
        ⟨⟨some cs, true⟩⟩ w).2.2 = lookupW cs.id w) := by
  refine ⟨?_, rfl, rfl, rfl, rfl, fun w' => rfl, ?_⟩
  · intro impl hw hr
    subst hw
    simp [ScopedSubscription.destruct, Subscription.unsubscribeOp, hr]
  · intro hne
    show lookupW cs.id ((Subscription.mk (some cd) true).unsubscribeOp w).2 = lookupW cs.id w
    exact unsubscribeOp_preserves_other_ids cd true w hne

theorem scoped_subscription_raii_witness :
    ScopedSubscription.destruct ⟨⟨some ⟨true, 1⟩, true⟩⟩
        (some (⟨[(1, HandlerBeh.plain)], 1⟩ : Impl Int))
      = some ((⟨[(1, HandlerBeh.plain)], 1⟩ : Impl Int).remove 1) :=
  (scoped_subscription_raii ⟨true, 1⟩ ⟨true, 2⟩
      (some (⟨[(1, HandlerBeh.plain)], 1⟩ : Impl Int))).1
    ⟨[(1, HandlerBeh.plain)], 1⟩ rfl rfl

/-! ### ObservableObject and the set-property helper

An `ObservableObject` owns the two events `PropertyChanging` and
`PropertyChanged`; the set-property helper is
`ObservableObject::SetPropertyValueAndNotify`.  The payload the two events
carry (object reference + property-name args) does not influence any handler
behaviour the registry can observe, so it is modelled as `Unit`. -/

/-- An observable object: a backing field plus its two event registries. -/
structure ObsObject (α : Type) where
  fieldVal : α
  changing : Impl Unit
  changed : Impl Unit

/-- One externally observable step of the set-property helper. -/
inductive SetStep where
  | invokedChanging (k : Nat)
  | assigned
  | invokedChanged (k : Nat)
deriving DecidableEq

/-- Outcome of the set-property helper: the object's final state, the
returned Bool (when no handler threw) and the observable steps in order. -/
inductive SetOutcome (α : Type) where
  | ok (o : ObsObject α) (returned : Bool) (steps : List SetStep)
  | threw (o : ObsObject α) (culprit : Nat) (steps : List SetStep)

/-- `ObservableObject::SetPropertyValueAndNotify(field, value)`:
`if (field == value) return false;` then raise `PropertyChanging`, assign
`field = value`, raise `PropertyChanged`, `return true`. -/
def SetPropertyValueAndNotify {α : Type} [DecidableEq α] (o : ObsObject α)
    (value : α) : SetOutcome α :=
  if o.fieldVal = value then .ok o false []
  else
    match o.changing.notify () with
    | .threw ch' tr1 c =>
        .threw { o with changing := ch' } c (tr1.map .invokedChanging)
    | .ok ch' tr1 =>
      let o1 : ObsObject α := { o with changing := ch', fieldVal := value }
      match o1.changed.notify () with
      | .threw cd' tr2 c =>
          .threw { o1 with changed := cd' } c
            (tr1.map .invokedChanging ++ .assigned :: tr2.map .invokedChanged)
      | .ok cd' tr2 =>
          .ok { o1 with changed := cd' } true
            (tr1.map .invokedChanging ++ .assigned :: tr2.map .invokedChanged)

/-- C8: the set-property helper compares old and new values; if equal it
returns false, raises no event and leaves the field unchanged; if they
differ (and no handler throws) it raises "changing" — invoking every handler
registered on that event — then assigns the field, then raises "changed", in
exactly that order, and returns true. -/
theorem set_property_value_and_notify_spec {α : Type} [DecidableEq α]
    (o : ObsObject α) (v : α) :
    (o.fieldVal = v → SetPropertyValueAndNotify o v = .ok o false []) ∧
    (o.fieldVal ≠ v → o.changing.noThrowOn () = true →
      o.changed.noThrowOn () = true →
      ∃ ch' cd', SetPropertyValueAndNotify o v =
        .ok ⟨v, ch', cd'⟩ true
          ((keysOf o.changing.handlers).map .invokedChanging ++
            .assigned :: (keysOf o.changed.handlers).map .invokedChanged)) := by
  constructor
  · intro h
    simp [SetPropertyValueAndNotify, h]
  · intro hne h1 h2
    have h1' : ∀ p ∈ o.changing.handlers, behThrows () p.2 = false := by
      intro p hp
      have := (List.all_eq_true.mp h1) p hp
      simpa using this
    have h2' : ∀ p ∈ o.changed.handlers, behThrows () p.2 = false := by
      intro p hp
      have := (List.all_eq_true.mp h2) p hp
      simpa using this
    obtain ⟨hok1, htr1⟩ := runHandlers_noThrow h1' o.changing
    obtain ⟨hok2, htr2⟩ := runHandlers_noThrow h2' o.changed
    match hr1 : o.changing.notify () with
    | .threw ch' tr1 c =>
      rw [show o.changing.notify () = runHandlers () o.changing.handlers o.changing
        from rfl] at hr1
      rw [hr1] at hok1
      exact absurd hok1 (by simp [NotifyResult.isOk])
    | .ok ch' tr1 =>
      have htr1' : tr1 = keysOf o.changing.handlers := by
        rw [show o.changing.notify () = runHandlers () o.changing.handlers o.changing
          from rfl] at hr1
        rw [hr1] at htr1
        exact htr1
      match hr2 : Impl.notify (o.changed) () with
      | .threw cd' tr2 c =>
        rw [show o.changed.notify () = runHandlers () o.changed.handlers o.changed
          from rfl] at hr2
        rw [hr2] at hok2
        exact absurd hok2 (by simp [NotifyResult.isOk])
      | .ok cd' tr2 =>
        have htr2' : tr2 = keysOf o.changed.handlers := by
          rw [show o.changed.notify () = runHandlers () o.changed.handlers o.changed
            from rfl] at hr2
          rw [hr2] at htr2
          exact htr2
        refine ⟨ch', cd', ?_⟩
        rw [SetPropertyValueAndNotify, if_neg hne, hr1]
        show (match Impl.notify (o.changed) () with
          | NotifyResult.threw cd' tr2 c =>
              SetOutcome.threw ⟨v, ch', cd'⟩ c
                (tr1.map SetStep.invokedChanging ++
                  SetStep.assigned :: tr2.map SetStep.invokedChanged)
          | NotifyResult.ok cd' tr2 =>
              SetOutcome.ok ⟨v, ch', cd'⟩ true
                (tr1.map SetStep.invokedChanging ++
                  SetStep.assigned :: tr2.map SetStep.invokedChanged)) = _
        rw [hr2, htr1', htr2']

theorem set_property_value_and_notify_spec_witness :
    ∃ ch' cd', SetPropertyValueAndNotify
        (⟨(0 : Int), ⟨[(1, HandlerBeh.plain)], 1⟩, ⟨[(1, HandlerBeh.plain)], 1⟩⟩ :
          ObsObject Int) 5 =
      .ok ⟨5, ch', cd'⟩ true
        [.invokedChanging 1, .assigned, .invokedChanged 1] :=
  (set_property_value_and_notify_spec
      (⟨(0 : Int), ⟨[(1, HandlerBeh.plain)], 1⟩, ⟨[(1, HandlerBeh.plain)], 1⟩⟩ :
        ObsObject Int) 5).2 (by decide) rfl rfl

/-! ### ObservableCollection and the Count property -/

/-- `ObservableCollection<T>`: wraps `std::vector<T> _items`.  (The two
collection-change events observe mutations but cannot alter the items, so
they are not part of the state relevant to the `Count` property.) -/
structure ObservableCollection (α : Type) where
  items : List α

/-- `size()`: `_items.size()`. -/
def ObservableCollection.size (c : ObservableCollection α) : Nat := c.items.length

/-- Reading the `Count` property: its getter is `[this] { return _items.size(); }`. -/
def ObservableCollection.countGet (c : ObservableCollection α) : Nat :=
  c.items.length

/-- Writing the `Count` property (via `Set` or assignment): its setter is
`[](size_type&) {}` — it ignores the value and mutates nothing. -/
def ObservableCollection.countSet (c : ObservableCollection α) (_v : Nat) :
    ObservableCollection α := c

/-- A structural mutation (or a `Count` write) on the collection. -/
inductive CollOp (α : Type) where
  | pushBack (a : α)
  | emplaceBack (a : α)
  | insertAt (i : Nat) (a : α)
  | emplaceAt (i : Nat) (a : α)
  | eraseAt (i : Nat)
  | eraseRange (i j : Nat)
  | clear
  | countWrite (v : Nat)

/-- Apply one collection operation, as the corresponding member performs it
on `_items`. -/
def applyCollOp (c : ObservableCollection α) : CollOp α → ObservableCollection α
  | .pushBack a => ⟨c.items ++ [a]⟩
  | .emplaceBack a => ⟨c.items ++ [a]⟩
  | .insertAt i a => ⟨c.items.insertIdx i a⟩
  | .emplaceAt i a => ⟨c.items.insertIdx i a⟩
  | .eraseAt i => ⟨c.items.eraseIdx i⟩
  | .eraseRange i j => ⟨c.items.take i ++ c.items.drop j⟩
  | .clear => ⟨[]⟩
  | .countWrite v => c.countSet v

/-- Apply a sequence of collection operations. -/
def applyCollOps (c : ObservableCollection α) (ops : List (CollOp α)) :
    ObservableCollection α :=
  ops.foldl applyCollOp c

/-- C10: after any sequence of `push_back`/`emplace_back`/`insert`/`emplace`/
`erase`/`clear` operations, reading `Count` returns exactly the collection's
current `size()`; writing to `Count` is a silent no-op that changes neither
`Count` nor the contents. -/
theorem count_reflects_size_and_count_write_is_noop {α : Type}
    (c0 : ObservableCollection α) (ops : List (CollOp α)) :
    (applyCollOps c0 ops).countGet = (applyCollOps c0 ops).size ∧
    (∀ (c : ObservableCollection α) (v : Nat),
      c.countSet v = c ∧ (c.countSet v).countGet = c.countGet ∧
      (c.countSet v).items = c.items) := by
  exact ⟨rfl, fun c v => ⟨rfl, rfl, rfl⟩⟩

/-! ### The mutex discipline of the dispatch core

`Impl` guards `handlers` and `currentId` with one `std::mutex`.  We record
the sequence of lock-relevant events each member function performs and run
those traces under an interleaving semantics with mutex ownership. -/

/-- A lock-relevant event of one member function: acquiring/releasing the
`Impl` mutex, mutating the handler map (`Add`'s insert / `Remove`'s erase),
iterating the map to build `Notify`'s snapshot, or invoking one snapshotted
handler. -/
inductive LockStep where
  | acquire
  | release
  | mutate
  | snapshotRead
  | invoke (k : Nat)

/-- `Impl::Add`: `lock_guard lock(mutex); ++currentId; handlers[id] = h;`. -/
def addLockTrace : List LockStep := [.acquire, .mutate, .release]

/-- `Impl::Remove`: `lock_guard lock(mutex); handlers.erase(id);`. -/
def removeLockTrace : List LockStep := [.acquire, .mutate, .release]

/-- `Impl::Notify`: copy the handlers under the lock, release it, then invoke
the snapshot outside the lock. -/
def notifyLockTrace (ids : List Nat) : List LockStep :=
  .acquire :: .snapshotRead :: .release :: ids.map .invoke

/-- `disciplined b tr`: starting with the mutex held iff `b`, the trace
acquires/releases the mutex in a balanced way, performs map mutation and
snapshot iteration only while holding it, invokes handlers only while not
holding it, and ends not holding it. -/
def disciplined : Bool → List LockStep → Bool
  | b, [] => !b
  | b, .acquire :: r => !b && disciplined true r
  | b, .release :: r => b && disciplined false r
  | b, .mutate :: r => b && disciplined true r
  | b, .snapshotRead :: r => b && disciplined true r
  | b, .invoke _ :: r => !b && disciplined false r

/-- State of a system of threads each running one member function's trace:
the remaining trace of every thread, and which thread (if any) currently
owns the `Impl` mutex. -/
structure SysState where
  threads : List (List LockStep)
  owner : Option Nat

/-- Does thread `t` own the mutex in state `st`? -/
def ownsLock (st : SysState) (t : Nat) : Bool := decide (st.owner = some t)

/-- Effect of one lock event on mutex ownership, from thread `t`:
`acquire` succeeds only when the mutex is free, `release` only by the owner
(mutex semantics); map accesses and handler invocations do not consult the
mutex. `none` means the thread is blocked. -/
def stepAt (owner : Option Nat) (t : Nat) : LockStep → Option (Option Nat)
  | .acquire => if owner = none then some (some t) else none
  | .release => if owner = some t then some none else none
  | .mutate => some owner
  | .snapshotRead => some owner
  | .invoke _ => some owner

/-- Run the next event of thread `t`, if the thread exists, has work left and
is not blocked on the mutex.  Returns the new state and the event executed. -/
def step (st : SysState) (t : Nat) : Option (SysState × LockStep) :=
  match st.threads[t]? with
  | none => none
  | some [] => none
  | some (s :: rest) =>
    match stepAt st.owner t s with
    | none => none
    | some owner' => some (⟨st.threads.set t rest, owner'⟩, s)

/-- Run a schedule (a sequence of thread choices); `none` if some scheduled
thread cannot move. -/
def runSched : List Nat → SysState → Option SysState
  | [], st => some st
  | t :: sched, st =>
    match step st t with
    | none => none
    | some r => runSched sched r.1

/-- Every thread's remaining trace is disciplined with respect to whether
that thread currently owns the mutex. -/
def Inv (st : SysState) : Prop :=
  ∀ t tr, st.threads[t]? = some tr → disciplined (ownsLock st t) tr = true

/-- The thread traces arising from the dispatch core's member functions. -/
def progTrace (tr : List LockStep) : Prop :=
  tr = addLockTrace ∨ tr = removeLockTrace ∨ ∃ ids, tr = notifyLockTrace ids

theorem disciplined_invoke_suffix (ids : List Nat) :
    disciplined false (ids.map LockStep.invoke) = true := by
  induction ids with
  | nil => rfl
  | cons i ids ih => simpa [disciplined] using ih

theorem progTrace_disciplined {tr : List LockStep} (h : progTrace tr) :
    disciplined false tr = true := by
  rcases h with rfl | rfl | ⟨ids, rfl⟩
  · rfl
  · rfl
  · simp [notifyLockTrace, disciplined, disciplined_invoke_suffix]

theorem Inv_start {trs : List (List LockStep)} (h : ∀ tr ∈ trs, progTrace tr) :
    Inv ⟨trs, none⟩ := by
  intro t tr hg
  have hmem : tr ∈ trs := List.getElem?_mem hg
  have hb : ownsLock ⟨trs, none⟩ t = false := by simp [ownsLock]
  rw [hb]
  exact progTrace_disciplined (h tr hmem)

theorem step_preserves_Inv {st st' : SysState} {t : Nat} {ev : LockStep}
    (hInv : Inv st) (h : step st t = some (st', ev)) : Inv st' := by
  unfold step at h
  cases hg : st.threads[t]? with
  | none => rw [hg] at h; exact absurd h (by simp)
  | some tr =>
    rw [hg] at h
    match tr with
    | [] => simp at h
    | s :: rest =>
      dsimp only at h
      cases hs : stepAt st.owner t s with
      | none => rw [hs] at h; simp at h
      | some owner' =>
        rw [hs] at h
        simp only [Option.some.injEq, Prod.mk.injEq] at h
        obtain ⟨hst', hev⟩ := h
        have hd := hInv t (s :: rest) hg
        intro t' tr' hg'
        rw [← hst'] at hg'
        simp only at hg'
        by_cases ht' : t' = t
        · subst ht'
          have hlen : t' < st.threads.length := by
            by_contra hlen
            rw [List.getElem?_eq_none (Nat.le_of_not_lt hlen)] at hg
            exact Option.noConfusion hg
          rw [List.getElem?_set_self hlen] at hg'
          obtain rfl : rest = tr' := Option.some.inj hg'
          rw [← hst']
          cases s with
          | acquire =>
            simp only [stepAt] at hs
            by_cases ho : st.owner = none
            · rw [if_pos ho] at hs
              obtain rfl : some t' = owner' := Option.some.inj hs
              have hb : ownsLock st t' = false := by
                simp [ownsLock, ho]
              rw [disciplined, hb] at hd
              simp only [Bool.not_false, Bool.true_and] at hd
              have : ownsLock ⟨st.threads.set t' rest, some t'⟩ t' = true := by
                simp [ownsLock]
              rw [this]
              exact hd
            · rw [if_neg ho] at hs
              exact Option.noConfusion hs
          | release =>
            simp only [stepAt] at hs
            by_cases ho : st.owner = some t'
            · rw [if_pos ho] at hs
              obtain rfl : (none : Option Nat) = owner' := Option.some.inj hs
              have hb : ownsLock st t' = true := by simp [ownsLock, ho]
              rw [disciplined, hb] at hd
              simp only [Bool.true_and] at hd
              have : ownsLock ⟨st.threads.set t' rest, none⟩ t' = false := by
                simp [ownsLock]
              rw [this]
              exact hd
            · rw [if_neg ho] at hs
              exact Option.noConfusion hs
          | mutate =>
            simp only [stepAt] at hs
            obtain rfl : st.owner = owner' := Option.some.inj hs
            rw [disciplined, Bool.and_eq_true] at hd
            have : ownsLock ⟨st.threads.set t' rest, st.owner⟩ t' = ownsLock st t' := rfl
            rw [this, hd.1]
            exact hd.2
          | snapshotRead =>
            simp only [stepAt] at hs
            obtain rfl : st.owner = owner' := Option.some.inj hs
            rw [disciplined, Bool.and_eq_true] at hd
            have : ownsLock ⟨st.threads.set t' rest, st.owner⟩ t' = ownsLock st t' := rfl
            rw [this, hd.1]
            exact hd.2
          | invoke k =>
            simp only [stepAt] at hs
            obtain rfl : st.owner = owner' := Option.some.inj hs
            rw [disciplined, Bool.and_eq_true] at hd
            have hb : ownsLock st t' = false := by
              cases hob : ownsLock st t'
              · rfl
              · rw [hob] at hd
                exact absurd hd.1 (by simp)
            have : ownsLock ⟨st.threads.set t' rest, st.owner⟩ t' = ownsLock st t' := rfl
            rw [this, hb]
            exact hd.2
        · rw [List.getElem?_set_ne (fun h => ht' h.symm)] at hg'
          have hd' := hInv t' tr' hg'
          rw [← hst']
          have hsame : ownsLock ⟨st.threads.set t rest, owner'⟩ t' = ownsLock st t' := by
            cases s with
            | acquire =>
              simp only [stepAt] at hs
              by_cases ho : st.owner = none
              · rw [if_pos ho] at hs
                obtain rfl : some t = owner' := Option.some.inj hs
                have hne : ¬t = t' := fun h => ht' h.symm
                simp [ownsLock, ho, Option.some.injEq, hne]
              · rw [if_neg ho] at hs
                exact Option.noConfusion hs
            | release =>
              simp only [stepAt] at hs
              by_cases ho : st.owner = some t
              · rw [if_pos ho] at hs
                obtain rfl : (none : Option Nat) = owner' := Option.some.inj hs
                have hne : ¬t = t' := fun h => ht' h.symm
                simp [ownsLock, ho, Option.some.injEq, hne]
              · rw [if_neg ho] at hs
                exact Option.noConfusion hs
            | mutate =>
              simp only [stepAt] at hs
              obtain rfl : st.owner = owner' := Option.some.inj hs
              rfl
            | snapshotRead =>
              simp only [stepAt] at hs
              obtain rfl : st.owner = owner' := Option.some.inj hs
              rfl
            | invoke k =>
              simp only [stepAt] at hs
              obtain rfl : st.owner = owner' := Option.some.inj hs
              rfl
          rw [hsame]
          exact hd'

theorem runSched_preserves_Inv (sched : List Nat) {st st' : SysState}
    (hInv : Inv st) (hrun : runSched sched st = some st') : Inv st' := by
  induction sched generalizing st with
  | nil =>
    obtain rfl : st = st' := Option.some.inj hrun
    exact hInv
  | cons t sched ih =>
    unfold runSched at hrun
    cases hs : step st t with
    | none => rw [hs] at hrun; exact absurd hrun (by simp)
    | some r =>
      rw [hs] at hrun
      have hr : step st t = some (r.1, r.2) := by rw [hs]
      exact ih (step_preserves_Inv hInv hr) hrun

/-- In a state satisfying the invariant, a mutation or snapshot iteration can
only be executed by the mutex owner, and an invocation only by a thread not
holding the mutex. -/
theorem step_owner_discipline {st : SysState} {t : Nat} {r : SysState × LockStep}
    (hInv : Inv st) (h : step st t = some r) :
    ((r.2 = LockStep.mutate ∨ r.2 = LockStep.snapshotRead) → st.owner = some t) ∧
    (∀ k, r.2 = LockStep.invoke k → st.owner ≠ some t) := by
  unfold step at h
  cases hg : st.threads[t]? with
  | none => rw [hg] at h; exact absurd h (by simp)
  | some tr =>
    rw [hg] at h
    match tr with
    | [] => simp at h
    | s :: rest =>
      dsimp only at h
      cases hs : stepAt st.owner t s with
      | none => rw [hs] at h; simp at h
      | some owner' =>
        rw [hs] at h
        have hev : r.2 = s := by
          obtain rfl : (⟨st.threads.set t rest, owner'⟩, s) = r := Option.some.inj h
          rfl
        have hd := hInv t (s :: rest) hg
        constructor
        · intro hcrit
          have hsor : s = LockStep.mutate ∨ s = LockStep.snapshotRead := by
            rw [hev] at hcrit; exact hcrit
          have hb : ownsLock st t = true := by
            rcases hsor with rfl | rfl
            · rw [disciplined, Bool.and_eq_true] at hd
              exact hd.1
            · rw [disciplined, Bool.and_eq_true] at hd
              exact hd.1
          simpa [ownsLock, decide_eq_true_eq] using hb
        · intro k hk
          have hsk : s = LockStep.invoke k := by rw [hev] at hk; exact hk
          subst hsk
          rw [disciplined, Bool.and_eq_true] at hd
          have hb : ownsLock st t = false := by
            cases hob : ownsLock st t
            · rfl
            · rw [hob] at hd
              exact absurd hd.1 (by simp)
          simpa [ownsLock, decide_eq_false_iff_not] using hb

/-- C6: registry mutation (insert on `Subscribe`, erase on `Unsubscribe`)
and the snapshot-building iteration of `Notify` happen only while their
thread owns the single `Impl` mutex — so, the owner being unique, they are
mutually exclusive with each other under any interleaving of any number of
threads — while the handler invocations performed by `Notify` happen without
holding that mutex. -/
theorem mutation_and_snapshot_mutually_exclusive_invocations_outside_lock
    (trs : List (List LockStep)) (hprog : ∀ tr ∈ trs, progTrace tr)
    (sched : List Nat) (st : SysState) (t : Nat) (r : SysState × LockStep)
    (hrun : runSched sched ⟨trs, none⟩ = some st)
    (hstep : step st t = some r) :
    ((r.2 = LockStep.mutate ∨ r.2 = LockStep.snapshotRead) → st.owner = some t) ∧
    (∀ k, r.2 = LockStep.invoke k → st.owner ≠ some t) :=
  step_owner_discipline (runSched_preserves_Inv sched (Inv_start hprog) hrun) hstep

theorem mutation_and_snapshot_mutually_exclusive_invocations_outside_lock_witness :
    (⟨[[LockStep.mutate, LockStep.release], notifyLockTrace [5]],
        some 0⟩ : SysState).owner = some 0 :=
  (mutation_and_snapshot_mutually_exclusive_invocations_outside_lock
    [addLockTrace, notifyLockTrace [5]]
    (by
      intro tr htr
      rw [List.mem_cons, List.mem_singleton] at htr
      rcases htr with rfl | rfl
      · exact Or.inl rfl
      · exact Or.inr (Or.inr ⟨[5], rfl⟩))
    [0]
    ⟨[[LockStep.mutate, LockStep.release], notifyLockTrace [5]], some 0⟩
    0
    (⟨[[LockStep.release], notifyLockTrace [5]], some 0⟩, LockStep.mutate)
    rfl rfl).1 (Or.inl rfl)

end ReactiveLitepp
